import Mathlib

/-!
Verification of the imagination-based actor-critic world model trainer
(`dreamerv2/agent.py`). Tensors are embedded as time-major lists of
per-step batch rows over `ℚ`; external networks (actor, critic, heads)
are abstracted as function parameters; `tf.stop_gradient` is the
identity on values (gradient flow is outside this value-level model).
-/

namespace DreamerIR

/-- Identity on values, marking the places where the source calls
`tf.stop_gradient`; the gradient-blocking effect itself has no
value-level content. -/
def stop_gradient {α : Type} (x : α) : α := x

/-- Elementwise binary operation on a time-major 2-D tensor,
truncating like `List.zipWith` (shapes agree in the source). -/
def zipWith2d (f : ℚ → ℚ → ℚ) (a b : List (List ℚ)) : List (List ℚ) :=
  a.zipWith (fun x y => x.zipWith f y) b

/-- Scalar multiplication of every entry of a 2-D tensor. -/
def smul2d (c : ℚ) (a : List (List ℚ)) : List (List ℚ) :=
  a.map (List.map (fun x => c * x))

/-- Sum of all entries of a 2-D tensor. -/
def sum2d (a : List (List ℚ)) : ℚ :=
  (a.map (fun r => r.sum)).sum

/-- Number of entries of a 2-D tensor. -/
def numel2d (a : List (List ℚ)) : ℕ :=
  (a.map List.length).sum

/-- Mean of all entries of a 2-D tensor (`tensor.mean()` over time and
batch). -/
def mean2d (a : List (List ℚ)) : ℚ :=
  sum2d a / (numel2d a : ℚ)

/-- Modelled from the spec: `common.lambda_return`, the routine called by
`ActorCritic.target` (agent.py line 381); its definition lives in the
repository's `common` module, which is not under `src/`. Per the spec it
works backward from the bootstrap value:
`return[t] = reward[t] + discount[t] * ((1-lambda)*value[t+1] + lambda*return[t+1])`,
with the bootstrap standing in for the value and the return one past the
end. The computation is elementwise over the batch, so one batch entry
is a list of scalars over the time axis. -/
def lambda_return : List ℚ → List ℚ → List ℚ → ℚ → ℚ → List ℚ
  | r :: rs, _ :: vs, d :: ds, bootstrap, lam =>
      (r + d * ((1 - lam) * vs.headD bootstrap
          + lam * (lambda_return rs vs ds bootstrap lam).headD bootstrap))
        :: lambda_return rs vs ds bootstrap lam
  | _, _, _, _, _ => []

/-- The 1-step TD target sequence `reward[t] + discount[t]*value[t+1]`
named by the spec, with the bootstrap standing in for the value one past
the end. -/
def tdTargets : List ℚ → List ℚ → List ℚ → ℚ → List ℚ
  | r :: rs, _ :: vs, d :: ds, bootstrap =>
      (r + d * vs.headD bootstrap) :: tdTargets rs vs ds bootstrap
  | _, _, _, _ => []

/-- The full discounted Monte-Carlo return named by the spec, using the
bootstrap as the tail value: `mc[t] = reward[t] + discount[t]*mc[t+1]`,
with `bootstrap` one past the end. -/
def mcReturns : List ℚ → List ℚ → ℚ → List ℚ
  | r :: rs, d :: ds, bootstrap =>
      (r + d * (mcReturns rs ds bootstrap).headD bootstrap)
        :: mcReturns rs ds bootstrap
  | _, _, _ => []

lemma lambda_return_zero_eq (r : List ℚ) : ∀ (v d : List ℚ) (b : ℚ),
    lambda_return r v d b 0 = tdTargets r v d b := by
  induction r with
  | nil => intro v d b; rfl
  | cons r0 rs ih =>
    intro v d b
    cases v with
    | nil => rfl
    | cons v0 vs =>
      cases d with
      | nil => rfl
      | cons d0 ds =>
        simp only [lambda_return, tdTargets, ih]
        norm_num

lemma lambda_return_one_eq (r : List ℚ) : ∀ (v d : List ℚ) (b : ℚ),
    r.length = v.length →
    lambda_return r v d b 1 = mcReturns r d b := by
  induction r with
  | nil => intro v d b _; rfl
  | cons r0 rs ih =>
    intro v d b hv
    cases v with
    | nil => exact absurd hv (by simp)
    | cons v0 vs =>
      cases d with
      | nil => rfl
      | cons d0 ds =>
        have hv' : rs.length = vs.length := by simpa using hv
        simp only [lambda_return, mcReturns, ih vs ds b hv']
        norm_num

/-- C1: the `lambda_return` used by `ActorCritic.target` equals, at
`lambda_=0`, the 1-step TD target sequence `reward[t] + discount[t]*value[t+1]`
for all t, and at `lambda_=1`, the full discounted Monte-Carlo return with
the bootstrap value as the tail. -/
theorem lambda_return_td_mc (reward value discount : List ℚ) (bootstrap : ℚ)
    (hv : reward.length = value.length) :
    lambda_return reward value discount bootstrap 0
      = tdTargets reward value discount bootstrap ∧
    lambda_return reward value discount bootstrap 1
      = mcReturns reward discount bootstrap :=
  ⟨lambda_return_zero_eq reward value discount bootstrap,
   lambda_return_one_eq reward value discount bootstrap hv⟩

/-- Witness for C1 at a concrete 3-step sequence. -/
theorem lambda_return_td_mc_witness :
    lambda_return [1, 1, 1] [2, 3, 4] [9/10, 9/10, 9/10] 10 0
      = tdTargets [1, 1, 1] [2, 3, 4] [9/10, 9/10, 9/10] 10 ∧
    lambda_return [1, 1, 1] [2, 3, 4] [9/10, 9/10, 9/10] 10 1
      = mcReturns [1, 1, 1] [9/10, 9/10, 9/10] 10 :=
  lambda_return_td_mc [1, 1, 1] [2, 3, 4] [9/10, 9/10, 9/10] 10 rfl

/-- Row of ones with the shape of a given batch row
(`tf.ones_like(disc[:1])` in agent.py line 227). -/
def ones_like (row : List ℚ) : List ℚ :=
  row.map fun _ => 1

/-- Discount sequence produced by `WorldModel.imagine`
(agent.py lines 213-223). `discPred` stands for the external discount
head's prediction `self.heads['discount'](seq['feat']).mean()`, already
time-major over the `1 + horizon` steps; `isTerminal` is the flattened
`is_terminal` batch row when given; `T` and `B` are the time and batch
sizes `seq['feat'].shape[:-1]` used by the no-discount-head branch. With
a discount head and `is_terminal` present, the first step is overridden
with `(1 - is_terminal) * config.discount` and the remaining steps keep
the head's prediction (`tf.concat([true_first[None], disc[1:]], 0)`). -/
def imagineDiscount (hasDiscountHead : Bool) (discPred : List (List ℚ))
    (isTerminal : Option (List ℚ)) (configDiscount : ℚ) (T B : ℕ) :
    List (List ℚ) :=
  if hasDiscountHead then
    match isTerminal with
    | some term =>
        (term.map fun x => (1 - x) * configDiscount) :: discPred.drop 1
    | none => discPred
  else
    List.replicate T (List.replicate B configDiscount)

/-- Helper for the running cumulative product: given the accumulated row
`p`, multiply it elementwise into each successive row. -/
def cumprodFrom (p : List ℚ) : List (List ℚ) → List (List ℚ)
  | [] => []
  | x :: xs => p.zipWith (· * ·) x :: cumprodFrom (p.zipWith (· * ·) x) xs

/-- Cumulative product along the time axis (`tf.math.cumprod(·, 0)`),
elementwise over the batch. -/
def cumprod : List (List ℚ) → List (List ℚ)
  | [] => []
  | x :: xs => x :: cumprodFrom x xs

/-- Weight sequence produced by `WorldModel.imagine`
(agent.py lines 226-227): the cumulative product of the discount
sequence shifted right by one step,
`tf.math.cumprod(tf.concat([tf.ones_like(disc[:1]), disc[:-1]], 0), 0)`. -/
def imagineWeight (disc : List (List ℚ)) : List (List ℚ) :=
  match disc with
  | [] => []
  | d0 :: _ => cumprod (ones_like d0 :: disc.dropLast)

lemma cumprodFrom_length (l : List (List ℚ)) :
    ∀ p, (cumprodFrom p l).length = l.length := by
  induction l with
  | nil => intro p; rfl
  | cons x xs ih => intro p; simp [cumprodFrom, ih]

lemma cumprod_length (l : List (List ℚ)) : (cumprod l).length = l.length := by
  cases l with
  | nil => rfl
  | cons x xs => simp [cumprod, cumprodFrom_length]

lemma cumprodFrom_succ (l : List (List ℚ)) :
    ∀ (p : List ℚ) (t : ℕ), t + 1 < l.length →
    ∃ ct st, (cumprodFrom p l)[t]? = some ct ∧ l[t+1]? = some st ∧
      (cumprodFrom p l)[t+1]? = some (ct.zipWith (· * ·) st) := by
  induction l with
  | nil => intro p t h; simp at h
  | cons x xs ih =>
    intro p t h
    cases t with
    | zero =>
      cases xs with
      | nil => simp at h
      | cons y ys =>
        refine ⟨p.zipWith (· * ·) x, y, ?_, ?_, ?_⟩ <;>
          simp [cumprodFrom]
    | succ t =>
      have h' : t + 1 < xs.length := by
        simpa [Nat.succ_lt_succ_iff] using h
      obtain ⟨ct, st, h1, h2, h3⟩ := ih (p.zipWith (· * ·) x) t h'
      exact ⟨ct, st, by simpa [cumprodFrom] using h1,
        by simpa using h2, by simpa [cumprodFrom] using h3⟩

lemma cumprod_succ (l : List (List ℚ)) (t : ℕ) (h : t + 1 < l.length) :
    ∃ ct st, (cumprod l)[t]? = some ct ∧ l[t+1]? = some st ∧
      (cumprod l)[t+1]? = some (ct.zipWith (· * ·) st) := by
  cases l with
  | nil => simp at h
  | cons x xs =>
    cases t with
    | zero =>
      cases xs with
      | nil => simp at h
      | cons y ys =>
        exact ⟨x, y, by simp [cumprod], by simp,
          by simp [cumprod, cumprodFrom]⟩
    | succ t =>
      have h' : t + 1 < xs.length := by
        simpa [Nat.succ_lt_succ_iff] using h
      obtain ⟨ct, st, h1, h2, h3⟩ := cumprodFrom_succ xs x t h'
      exact ⟨ct, st, by simpa [cumprod] using h1,
        by simpa using h2, by simpa [cumprod] using h3⟩

/-- C3: the weight sequence of `WorldModel.imagine` has the length of the
discount sequence, starts at 1 (a row of ones), and satisfies
`weight[t+1] = weight[t] * discount[t]` elementwise. -/
theorem imagineWeight_recurrence (disc : List (List ℚ)) (d0 wt dt : List ℚ)
    (t : ℕ) (hhead : disc.head? = some d0) (ht : t + 1 < disc.length)
    (hwt : (imagineWeight disc)[t]? = some wt) (hdt : disc[t]? = some dt) :
    (imagineWeight disc).length = disc.length ∧
    (imagineWeight disc).head? = some (ones_like d0) ∧
    (imagineWeight disc)[t+1]? = some (wt.zipWith (· * ·) dt) := by
  cases disc with
  | nil => simp at hhead
  | cons e rest =>
    have he : e = d0 := by simpa using hhead
    subst he
    refine ⟨?_, ?_, ?_⟩
    · simp [imagineWeight, cumprod_length]
    · simp [imagineWeight, cumprod]
    · have hlt : t < rest.length := by
        simpa [Nat.succ_lt_succ_iff] using ht
      have hts : t + 1 < (ones_like e :: (e :: rest).dropLast).length := by
        simp only [List.length_cons, List.length_dropLast]
        omega
      obtain ⟨ct, st, h1, h2, h3⟩ :=
        cumprod_succ (ones_like e :: (e :: rest).dropLast) t hts
      have hct : ct = wt := by
        have h1' : (imagineWeight (e :: rest))[t]? = some ct := by
          simpa [imagineWeight] using h1
        rw [h1'] at hwt
        exact Option.some.inj hwt
      have hst : st = dt := by
        rw [List.getElem?_cons_succ, List.dropLast_eq_take,
          List.getElem?_take] at h2
        rw [if_pos (by simpa using hlt)] at h2
        rw [hdt] at h2
        exact (Option.some.inj h2).symm
      rw [hct, hst] at h3
      simpa [imagineWeight] using h3

/-- Witness for C3 at the 3-step discount sequence `[[2],[3],[4]]`. -/
theorem imagineWeight_recurrence_witness :
    (imagineWeight [[2], [3], [4]]).length = 3 ∧
    (imagineWeight [[2], [3], [4]]).head? = some (ones_like [2]) ∧
    (imagineWeight [[2], [3], [4]])[2]? = some (List.zipWith (· * ·) [2] [3]) :=
  imagineWeight_recurrence [[2], [3], [4]] [2] [2] [3] 1
    rfl (by norm_num)
    (by norm_num [imagineWeight, cumprod, cumprodFrom, ones_like]) rfl

/-- C2: with a discount head and an `is_terminal` input,
`WorldModel.imagine` overrides only the first step's discount with
`(1 - is_terminal) * config.discount` and keeps the head's prediction on
every later step; the spec's concrete scenario (`is_terminal = [1, 0]`,
configured discount `0.9`, head predicting `0.5` everywhere with
horizon 3) gives `[0, 0.9]` at the first step and `0.5` afterwards; with
no discount head every entry is the configured constant discount. -/
theorem imagineDiscount_spec (discPred : List (List ℚ)) (term : List ℚ)
    (γ : ℚ) (T B t : ℕ) (row : List ℚ)
    (hrow : (imagineDiscount false discPred none γ T B)[t]? = some row) :
    (imagineDiscount true discPred (some term) γ T B).head?
      = some (term.map fun x => (1 - x) * γ) ∧
    (∀ u, (imagineDiscount true discPred (some term) γ T B)[u+1]?
      = discPred[u+1]?) ∧
    imagineDiscount true (List.replicate 4 [1/2, 1/2]) (some [1, 0])
      (9/10) 4 2 = [0, 9/10] :: List.replicate 3 [1/2, 1/2] ∧
    ∀ x ∈ row, x = γ := by
  refine ⟨by simp [imagineDiscount], ?_,
    by norm_num [imagineDiscount, List.replicate_succ], ?_⟩
  · intro u
    simp [imagineDiscount, List.getElem?_drop, Nat.add_comm]
  · intro x hx
    simp only [imagineDiscount, if_neg (by simp : ¬False),
      Bool.false_eq_true, if_false, List.getElem?_replicate] at hrow
    split at hrow
    · cases Option.some.inj hrow
      exact List.eq_of_mem_replicate hx
    · exact absurd hrow (by simp)

/-- Witness for C2 with a 1-entry batch, one imagined step. -/
theorem imagineDiscount_spec_witness :
    imagineDiscount true (List.replicate 4 [1/2, 1/2]) (some [1, 0])
      (9/10) 4 2 = [0, 9/10] :: List.replicate 3 [1/2, 1/2] :=
  (imagineDiscount_spec [[1/2]] [1, 0] (9/10) 1 1 0 [9/10] rfl).2.2.1

/-- C9: with a discount head but no `is_terminal` input,
`WorldModel.imagine` applies no first-step override: every step of the
discount sequence, the first included, is the head's prediction. -/
theorem imagineDiscount_no_override (discPred : List (List ℚ)) (γ : ℚ)
    (T B t : ℕ) :
    (imagineDiscount true discPred none γ T B)[t]? = discPred[t]? := by
  simp [imagineDiscount]

/-- Configuration fields read by `ActorCritic.update_slow_target`
(agent.py lines 391-398). -/
structure ACConfig where
  slow_target : Bool
  slow_target_update : ℕ
  slow_target_fraction : ℚ

/-- Mutable state of the slow-target machinery: the `_updates` counter
and the target critic's parameter tensor (flattened to one list). -/
structure SlowTargetState where
  updates : ℕ
  targetVars : List ℚ

/-- One call of `ActorCritic.update_slow_target` (agent.py lines
391-398): when `slow_target` is enabled and the counter is divisible by
`slow_target_update`, every target parameter is assigned
`mix * critic + (1 - mix) * target` with `mix = 1` on the very first
update and `mix = slow_target_fraction` afterwards; the counter then
increments; with `slow_target` disabled nothing happens. -/
def update_slow_target (cfg : ACConfig) (criticVars : List ℚ)
    (st : SlowTargetState) : SlowTargetState :=
  if cfg.slow_target then
    { updates := st.updates + 1,
      targetVars :=
        if st.updates % cfg.slow_target_update = 0 then
          let mix : ℚ :=
            if st.updates = 0 then 1 else cfg.slow_target_fraction
          criticVars.zipWith (fun s d => mix * s + (1 - mix) * d)
            st.targetVars
        else st.targetVars }
  else st

lemma zipWith_hard_copy (a : List ℚ) :
    ∀ b : List ℚ, a.length = b.length →
    a.zipWith (fun s d => 1 * s + (1 - 1) * d) b = a := by
  induction a with
  | nil => intro b _; rfl
  | cons x xs ih =>
    intro b h
    cases b with
    | nil => simp at h
    | cons y ys =>
      simp only [List.zipWith]
      rw [ih ys (by simpa using h)]
      norm_num

/-- C4: with `slow_target` enabled, `update_slow_target` increments the
counter on every call; when the counter is divisible by
`slow_target_update` it assigns `mix*critic + (1-mix)*target`
elementwise with `mix = 1` on the very first update (hence an exact copy
of the critic) and `mix = slow_target_fraction` afterwards; on other
calls the target parameters are untouched. -/
theorem update_slow_target_spec (cfg : ACConfig) (critic : List ℚ)
    (st : SlowTargetState) (hslow : cfg.slow_target = true) :
    (update_slow_target cfg critic st).updates = st.updates + 1 ∧
    (st.updates % cfg.slow_target_update = 0 →
      (update_slow_target cfg critic st).targetVars
        = critic.zipWith
            (fun s d =>
              (if st.updates = 0 then (1 : ℚ)
                else cfg.slow_target_fraction) * s
              + (1 - (if st.updates = 0 then (1 : ℚ)
                  else cfg.slow_target_fraction)) * d)
            st.targetVars) ∧
    (¬ st.updates % cfg.slow_target_update = 0 →
      (update_slow_target cfg critic st).targetVars = st.targetVars) ∧
    (st.updates = 0 → critic.length = st.targetVars.length →
      (update_slow_target cfg critic st).targetVars = critic) := by
  refine ⟨?_, ?_, ?_, ?_⟩
  · simp [update_slow_target, hslow]
  · intro h
    simp [update_slow_target, hslow, h]
  · intro h
    simp [update_slow_target, hslow, h]
  · intro h0 hlen
    have hm : st.updates % cfg.slow_target_update = 0 := by simp [h0]
    have := zipWith_hard_copy critic st.targetVars hlen
    simp only [update_slow_target, hslow, if_true, hm, if_pos, h0]
    simpa using this

/-- Witness for C4: the very first update hard-copies the critic. -/
theorem update_slow_target_spec_witness :
    (update_slow_target ⟨true, 2, 1/2⟩ [2, 4] ⟨0, [0, 0]⟩).targetVars
      = [2, 4] :=
  (update_slow_target_spec ⟨true, 2, 1/2⟩ [2, 4] ⟨0, [0, 0]⟩ rfl).2.2.2
    rfl rfl

/-- Time-major 2-D tensor (time, batch) of scalars. -/
abbrev Tensor2 := List (List ℚ)

/-- Time-major 3-D tensor (time, batch, feature/action dimension). -/
abbrev Tensor3 := List (List (List ℚ))

/-- Objective selected by the `actor_grad` dispatch of
`ActorCritic.actor_loss` (agent.py lines 331-347). The external actor,
target critic and schedule are abstracted: `policyLogProb f a` is
`self.actor(f).log_prob(a)`, `criticMode f` is
`self._target_critic(f).mode()`, and `actorGradMix` is the scheduled
`actor_grad_mix` value. An unrecognized mode raises
`NotImplementedError(self.config.actor_grad)`, embedded as
`Except.error` carrying the offending string. -/
def actorObjective (actorGrad : String) (actorGradMix : ℚ)
    (policyLogProb : Tensor3 → Tensor3 → Tensor2)
    (criticMode : Tensor3 → Tensor2)
    (feat action : Tensor3) (target : Tensor2) :
    Except String Tensor2 :=
  let polFeat := stop_gradient (feat.take (feat.length - 2))
  if actorGrad = "dynamics" then
    Except.ok (target.drop 1)
  else if actorGrad = "reinforce" then
    let baseline := criticMode (feat.take (feat.length - 2))
    let advantage := stop_gradient (zipWith2d (· - ·) (target.drop 1) baseline)
    let act := stop_gradient ((action.drop 1).dropLast)
    Except.ok (zipWith2d (· * ·) (policyLogProb polFeat act) advantage)
  else if actorGrad = "both" then
    let baseline := criticMode (feat.take (feat.length - 2))
    let advantage := stop_gradient (zipWith2d (· - ·) (target.drop 1) baseline)
    let objR := zipWith2d (· * ·)
      (policyLogProb polFeat ((action.drop 1).dropLast)) advantage
    Except.ok (zipWith2d
      (fun a b => actorGradMix * a + (1 - actorGradMix) * b)
      (target.drop 1) objR)
  else
    Except.error actorGrad

/-- Loss computed by `ActorCritic.actor_loss` (agent.py lines 316-355):
add the scheduled entropy bonus to the mode's objective, multiply by the
gradient-stopped importance weight with the last two timesteps dropped,
and negate the mean over time and batch. `policyEntropy f` stands for
`self.actor(f).entropy()` and `entScale` for the scheduled `actor_ent`
coefficient. -/
def actor_loss (actorGrad : String) (actorGradMix entScale : ℚ)
    (policyLogProb : Tensor3 → Tensor3 → Tensor2)
    (policyEntropy : Tensor3 → Tensor2)
    (criticMode : Tensor3 → Tensor2)
    (feat action : Tensor3) (weight target : Tensor2) :
    Except String ℚ :=
  match actorObjective actorGrad actorGradMix policyLogProb criticMode
      feat action target with
  | Except.error e => Except.error e
  | Except.ok objective =>
    let polFeat := stop_gradient (feat.take (feat.length - 2))
    let ent := policyEntropy polFeat
    let obj2 := zipWith2d (· + ·) objective (smul2d entScale ent)
    let w := stop_gradient weight
    Except.ok (-(mean2d (zipWith2d (· * ·) (w.take (w.length - 2)) obj2)))

/-- C6: `actor_loss` fails (with the offending mode string, the
embedding of the fatal `NotImplementedError`) exactly when `actor_grad`
is none of `dynamics`, `reinforce`, `both`; the error propagates out of
the computation uncaught. -/
theorem actor_loss_error_iff (actorGrad : String) (actorGradMix entScale : ℚ)
    (policyLogProb : Tensor3 → Tensor3 → Tensor2)
    (policyEntropy : Tensor3 → Tensor2)
    (criticMode : Tensor3 → Tensor2)
    (feat action : Tensor3) (weight target : Tensor2) :
    actor_loss actorGrad actorGradMix entScale policyLogProb policyEntropy
        criticMode feat action weight target = Except.error actorGrad
      ↔ (actorGrad ≠ "dynamics" ∧ actorGrad ≠ "reinforce"
          ∧ actorGrad ≠ "both") := by
  unfold actor_loss actorObjective
  split_ifs with h1 h2 h3 <;> simp_all

/-- Witness for C6: an unrecognized mode string is rejected. -/
theorem actor_loss_error_iff_witness :
    actor_loss "bogus" 0 0 (fun _ _ => []) (fun _ => []) (fun _ => [])
      [] [] [] [] = Except.error "bogus" :=
  (actor_loss_error_iff "bogus" 0 0 (fun _ _ => []) (fun _ => [])
    (fun _ => []) [] [] [] []).mpr
    ⟨by decide, by decide, by decide⟩

/-- C5: for an imagined sequence of length `1 + horizon` whose mode
dispatch produced an objective, `actor_loss` is the negative mean over
time and batch of `weight * (objective + entScale * entropy)`, keeping
only the first `horizon - 1` timesteps of the weight (the last two
timesteps are excluded) and reading the weight through
`stop_gradient`. -/
theorem actor_loss_form (actorGrad : String) (actorGradMix entScale : ℚ)
    (policyLogProb : Tensor3 → Tensor3 → Tensor2)
    (policyEntropy : Tensor3 → Tensor2)
    (criticMode : Tensor3 → Tensor2)
    (feat action : Tensor3) (weight target : Tensor2)
    (horizon : ℕ) (objective : Tensor2)
    (hobj : actorObjective actorGrad actorGradMix policyLogProb criticMode
      feat action target = Except.ok objective)
    (hfeat : feat.length = 1 + horizon)
    (hw : weight.length = 1 + horizon) :
    actor_loss actorGrad actorGradMix entScale policyLogProb policyEntropy
        criticMode feat action weight target
      = Except.ok (-(mean2d (zipWith2d (· * ·)
          (weight.take (horizon - 1))
          (zipWith2d (· + ·) objective
            (smul2d entScale (policyEntropy
              (stop_gradient (feat.take (horizon - 1))))))))) := by
  have h2 : 1 + horizon - 2 = horizon - 1 := by omega
  unfold actor_loss
  rw [hobj]
  simp only [stop_gradient, hfeat, hw, h2]

/-- Witness for C5 with horizon 2 and a 3-step imagined sequence. -/
theorem actor_loss_form_witness :
    actor_loss "dynamics" 0 1 (fun _ _ => []) (fun _ => [[0], [0]])
      (fun _ => []) [[[1]], [[1]], [[1]]] [] [[1], [1], [1]] [[2], [3]]
      = Except.ok (-(mean2d (zipWith2d (· * ·)
          (List.take (2 - 1) [[1], [1], [1]])
          (zipWith2d (· + ·) (List.drop 1 [[2], [3]])
            (smul2d 1 ((fun _ => [[0], [0]])
              (stop_gradient
                (List.take (2 - 1) [[[1]], [[1]], [[1]]])))))))) :=
  actor_loss_form "dynamics" 0 1 (fun _ _ => []) (fun _ => [[0], [0]])
    (fun _ => []) [[[1]], [[1]], [[1]]] [] [[1], [1], [1]] [[2], [3]]
    2 (List.drop 1 [[2], [3]]) rfl rfl rfl

/-- Head registry built by `WorldModel.__init__` (agent.py lines
98-102): `decoder` and `reward` always, `discount` when
`config.pred_discount` is set. -/
def worldModelHeads (predDiscount : Bool) : List String :=
  ["decoder", "reward"] ++ if predDiscount then ["discount"] else []

/-- Construction-time assertion loop of `WorldModel.__init__` (agent.py
lines 103-104): `for name in config.grad_heads: assert name in
self.heads, name`. The first unregistered name aborts construction,
carried as the error payload. -/
def gradHeadsCheck (gradHeads : List String) (predDiscount : Bool) :
    Except String Unit :=
  match gradHeads.find? (fun n => !(worldModelHeads predDiscount).contains n)
      with
  | some n => Except.error n
  | none => Except.ok ()

/-- Scalar-rank assertion of `WorldModel.loss` (agent.py line 121):
`assert len(kl_loss.shape) == 0`, over the rank of the KL loss returned
by the RSSM. -/
def klShapeAssert (klRank : ℕ) : Except String Unit :=
  if klRank = 0 then Except.ok () else Except.error "kl_loss is not scalar"

/-- C7: the construction-time head check passes exactly when every name
in `grad_heads` is a registered head, and the KL shape assertion passes
exactly when the KL loss is scalar-rank; under those preconditions the
assertion branches are unreachable, and otherwise the failure is a fatal
error. -/
theorem worldModel_assertions (gradHeads : List String) (predDiscount : Bool)
    (klRank : ℕ) :
    (gradHeadsCheck gradHeads predDiscount = Except.ok ()
      ↔ ∀ n ∈ gradHeads, n ∈ worldModelHeads predDiscount) ∧
    (klShapeAssert klRank = Except.ok () ↔ klRank = 0) := by
  refine ⟨?_, ?_⟩
  · unfold gradHeadsCheck
    cases hfind : gradHeads.find?
        (fun n => !(worldModelHeads predDiscount).contains n) with
    | none =>
      simp only [List.find?_eq_none] at hfind
      refine iff_of_true rfl ?_
      intro n hn
      simpa using hfind n hn
    | some n =>
      refine iff_of_false (by simp) ?_
      intro h
      have hmem := List.mem_of_find?_eq_some hfind
      have hp := List.find?_some hfind
      simp only [Bool.not_eq_true'] at hp
      exact absurd (h n hmem) (by simpa using hp)
  · unfold klShapeAssert
    split_ifs with h
    · simp [h]
    · simp [h]

/-- Witness for C7: the default registry accepts its own heads and a
scalar KL loss passes. -/
theorem worldModel_assertions_witness :
    gradHeadsCheck ["decoder", "reward"] false = Except.ok () :=
  (worldModel_assertions ["decoder", "reward"] false 0).1.mpr (by decide)

/-- Matrix-vector product `tf.linalg.matvec` for one batch item. -/
def matvec (J : List (List ℚ)) (v : List ℚ) : List ℚ :=
  J.map fun row => (row.zipWith (· * ·) v).sum

/-- Mean of a list of scalars (`tf.reduce_mean` over the batch axis). -/
def meanList (l : List ℚ) : ℚ :=
  l.sum / (l.length : ℚ)

/-- Sum of squares of a vector (`tf.reduce_sum(x**2, axis=1)` for one
batch item). -/
def sumsq (x : List ℚ) : ℚ :=
  (x.map fun a => a * a).sum

/-- Core computation of `WorldModel.relaxed_distortion_measure`
(agent.py lines 179-189), after the externally-sampled randomness: `J`
is the batch of decoder Jacobians `tape.batch_jacobian(func(z_augmented),
z_augmented)` at the perturbed latents and `v` the batch of random
directions. `Jv` is the Jacobian-vector product, `TrG` the mean squared
norm of `Jv`, `TrG2` the mean squared norm of the transposed Jacobian
applied to `Jv`, and the result is `TrG2 - 2*TrG + 2`. -/
def relaxed_distortion_measure (J : List (List (List ℚ)))
    (v : List (List ℚ)) : ℚ :=
  let Jv := J.zipWith matvec v
  let TrG := meanList (Jv.map sumsq)
  let JTJv := J.zipWith (fun Jb Jvb => matvec Jb.transpose Jvb) Jv
  let TrG2 := meanList (JTJv.map sumsq)
  TrG2 - 2 * TrG + 2

/-- Spec-side first statistic: mean squared norm of the Jacobian-vector
product of the decoder at the perturbed features. -/
def jvpMeanSqNorm (J : List (List (List ℚ))) (v : List (List ℚ)) : ℚ :=
  meanList ((J.zipWith matvec v).map sumsq)

/-- Spec-side second statistic: mean squared norm of the
Jacobian-transpose applied to the Jacobian-vector product. -/
def jtJvpMeanSqNorm (J : List (List (List ℚ))) (v : List (List ℚ)) : ℚ :=
  meanList ((J.zipWith (fun Jb Jvb => matvec Jb.transpose Jvb)
    (J.zipWith matvec v)).map sumsq)

/-- Per-term weight of the total model loss:
`self.config.loss_scales.get(k, 1.0)` (agent.py line 142). -/
def lossScaleOf (scales : List (String × ℚ)) (k : String) : ℚ :=
  ((scales.find? fun p => p.1 == k).map Prod.snd).getD 1

/-- Weighted total `model_loss = sum(loss_scales.get(k, 1.0) * v)` over
the loss dictionary (agent.py lines 141-142). -/
def model_loss (scales : List (String × ℚ)) (losses : List (String × ℚ)) :
    ℚ :=
  (losses.map fun p => lossScaleOf scales p.1 * p.2).sum

/-- Loss dictionary built by `WorldModel.loss` (agent.py lines 123-138):
the KL term, the per-head negative log-likelihoods, and finally the
`iso` entry holding `iso_reg * relaxed_distortion_measure(...)`. -/
def worldModelLosses (klLoss : ℚ) (headLosses : List (String × ℚ))
    (isoReg : ℚ) (J : List (List (List ℚ))) (v : List (List ℚ)) :
    List (String × ℚ) :=
  ("kl", klLoss) :: headLosses ++
    [("iso", isoReg * relaxed_distortion_measure J v)]

/-- C8: the geometric-regularization term equals `term2 - 2*term1 + 2`
for the two mean-squared-norm statistics, and when `loss_scales` has no
`iso` override the total model loss is the remaining weighted terms plus
`iso_reg` times that measure. -/
theorem relaxed_distortion_spec (J : List (List (List ℚ)))
    (v : List (List ℚ)) (klLoss : ℚ) (headLosses : List (String × ℚ))
    (isoReg : ℚ) (scales : List (String × ℚ))
    (hiso : scales.find? (fun p => p.1 == "iso") = none) :
    relaxed_distortion_measure J v
      = jtJvpMeanSqNorm J v - 2 * jvpMeanSqNorm J v + 2 ∧
    model_loss scales (worldModelLosses klLoss headLosses isoReg J v)
      = model_loss scales (("kl", klLoss) :: headLosses)
        + isoReg * relaxed_distortion_measure J v := by
  refine ⟨rfl, ?_⟩
  have hscale : lossScaleOf scales "iso" = 1 := by
    unfold lossScaleOf
    rw [hiso]
    rfl
  unfold model_loss worldModelLosses
  simp only [List.map_cons, List.map_append, List.sum_cons, List.sum_append,
    List.map_nil, List.sum_nil]
  rw [hscale]
  ring

/-- Witness for C8 with empty batch statistics and no scale overrides. -/
theorem relaxed_distortion_spec_witness :
    relaxed_distortion_measure [] []
      = jtJvpMeanSqNorm [] [] - 2 * jvpMeanSqNorm [] [] + 2 ∧
    model_loss [] (worldModelLosses 1 [] (1/10) [] [])
      = model_loss [] [("kl", 1)] + (1/10) * relaxed_distortion_measure [] [] :=
  relaxed_distortion_spec [] [] 1 [] (1/10) [] rfl

/-- Scalar tensor value of one observation entry, tagged with its dtype
as `WorldModel.preprocess` distinguishes them. -/
inductive Val where
  | i32 : Int → Val
  | u8 : ℕ → Val
  | f : ℚ → Val
deriving DecidableEq

/-- Numeric value under a pure dtype cast (`value.astype(dtype)` with no
rescaling, as on agent.py line 247). -/
def valToFloat : Val → ℚ
  | .i32 n => (n : ℚ)
  | .u8 n => (n : ℚ)
  | .f x => x

/-- Dtype handling of the preprocessing loop body (agent.py lines
237-241): int32 entries are cast to the compute dtype; uint8 entries are
cast and rescaled by `/ 255.0 - 0.5`; float entries pass through. -/
def convertVal : Val → Val
  | .i32 n => .f (n : ℚ)
  | .u8 n => .f ((n : ℚ) / 255 - 1 / 2)
  | .f x => .f x

/-- Decides whether one character list starts with another; `c == d`
comparisons mirror Python's per-character equality. -/
def charListStartsWith : List Char → List Char → Bool
  | _, [] => true
  | [], _ :: _ => false
  | c :: cs, d :: ds => c == d && charListStartsWith cs ds

/-- Embedding of the guard `key.startswith('log_')` on agent.py
line 235. -/
def isLogKey (k : String) : Bool :=
  charListStartsWith k.data "log_".data

/-- Dictionary read `obs[key]`, as a total function returning `none`
where Python would raise `KeyError`. -/
def getKey (obs : List (String × Val)) (k : String) : Option Val :=
  (obs.find? fun p => p.1 == k).map Prod.snd

/-- Dictionary write `obs[key] = v`: replace the entry when the key is
present, append it otherwise (Python dict keys are unique). -/
def setKey : List (String × Val) → String → Val → List (String × Val)
  | [], k, v => [(k, v)]
  | p :: ps, k, v => if p.1 == k then (k, v) :: ps else p :: setKey ps k v

/-- The per-entry loop of `WorldModel.preprocess` (agent.py lines
234-241): entries whose key starts with `log_` are skipped, all others
get the dtype conversion. -/
def preprocessLoop (obs : List (String × Val)) : List (String × Val) :=
  obs.map fun p => if isLogKey p.1 then p else (p.1, convertVal p.2)

/-- Observation preprocessing of `WorldModel.preprocess` (agent.py
lines 230-249): run the dtype loop, apply the configured reward clip
(abstracted as `clip`, the function selected from
`{identity, sign, tanh}[config.clip_rewards]`), then overwrite the
`discount` entry with `(1 - is_terminal) * config.discount`. Missing
`reward` or `is_terminal` keys are Python `KeyError`s, embedded as
`none`. -/
def preprocess (clip : Val → Val) (γ : ℚ) (obs : List (String × Val)) :
    Option (List (String × Val)) :=
  let obs1 := preprocessLoop obs
  match getKey obs1 "reward" with
  | none => none
  | some r =>
    let obs2 := setKey obs1 "reward" (clip r)
    match getKey obs2 "is_terminal" with
    | none => none
    | some tv => some (setKey obs2 "discount" (Val.f ((1 - valToFloat tv) * γ)))

lemma getKey_setKey_same (obs : List (String × Val)) (k : String) (v : Val) :
    getKey (setKey obs k v) k = some v := by
  induction obs with
  | nil => simp [setKey, getKey]
  | cons p ps ih =>
    by_cases hp : p.1 == k
    · simp [setKey, getKey, hp]
    · simp only [setKey, hp, Bool.false_eq_true, if_false]
      simpa [getKey, hp] using ih

lemma getKey_setKey_ne (obs : List (String × Val)) (k k' : String) (v : Val)
    (h : k' ≠ k) :
    getKey (setKey obs k v) k' = getKey obs k' := by
  have hk : (k == k') = false := beq_eq_false_iff_ne.mpr (Ne.symm h)
  induction obs with
  | nil => simp [setKey, getKey, hk]
  | cons p ps ih =>
    by_cases hp : p.1 == k
    · have hp' : p.1 = k := by simpa using hp
      simp [setKey, getKey, hp, hk, hp']
    · simp only [setKey, hp, Bool.false_eq_true, if_false]
      by_cases hq : p.1 == k'
      · simp [getKey, hq]
      · simpa [getKey, hq] using ih

lemma getKey_preprocessLoop_log (obs : List (String × Val)) (k : String)
    (hk : isLogKey k = true) :
    getKey (preprocessLoop obs) k = getKey obs k := by
  induction obs with
  | nil => rfl
  | cons p ps ih =>
    by_cases hp : p.1 == k
    · have hp' : p.1 = k := by simpa using hp
      have hlog : isLogKey p.1 = true := hp' ▸ hk
      simp [preprocessLoop, getKey, hlog, hp]
    · by_cases hlog : isLogKey p.1
      · simpa [preprocessLoop, getKey, hlog, hp] using ih
      · simpa [preprocessLoop, getKey, hlog, hp] using ih

lemma getKey_preprocessLoop_not_log (obs : List (String × Val)) (k : String)
    (hk : isLogKey k = false) :
    getKey (preprocessLoop obs) k = (getKey obs k).map convertVal := by
  induction obs with
  | nil => rfl
  | cons p ps ih =>
    by_cases hp : p.1 == k
    · have hp' : p.1 = k := by simpa using hp
      have hlog : isLogKey p.1 = false := hp' ▸ hk
      simp [preprocessLoop, getKey, hlog, hp]
    · by_cases hlog : isLogKey p.1
      · simpa [preprocessLoop, getKey, hlog, hp] using ih
      · simpa [preprocessLoop, getKey, hlog, hp] using ih

/-- C10: any entry whose key starts with `log_` passes through
`WorldModel.preprocess` unchanged, while the `discount` entry of the
result is always `(1 - is_terminal) * config.discount` computed from the
(dtype-converted) `is_terminal` entry, regardless of any incoming value
under the `discount` key. -/
theorem preprocess_spec (clip : Val → Val) (γ : ℚ)
    (obs result : List (String × Val))
    (hres : preprocess clip γ obs = some result) :
    (∀ k, isLogKey k = true → getKey result k = getKey obs k) ∧
    (∀ tv, getKey obs "is_terminal" = some tv →
      getKey result "discount"
        = some (Val.f ((1 - valToFloat (convertVal tv)) * γ))) := by
  simp only [preprocess] at hres
  split at hres
  · exact absurd hres (by simp)
  · rename_i r hr
    split at hres
    · exact absurd hres (by simp)
    · rename_i tv ht
      have hres' : result
          = setKey (setKey (preprocessLoop obs) "reward" (clip r))
              "discount" (Val.f ((1 - valToFloat tv) * γ)) :=
        (Option.some.inj hres).symm
      subst hres'
      constructor
      · intro k hk
        have h1 : k ≠ "discount" := by
          intro h
          rw [h] at hk
          exact absurd hk (by decide)
        have h2 : k ≠ "reward" := by
          intro h
          rw [h] at hk
          exact absurd hk (by decide)
        rw [getKey_setKey_ne _ _ _ _ h1, getKey_setKey_ne _ _ _ _ h2]
        exact getKey_preprocessLoop_log obs k hk
      · intro tv0 htv0
        rw [getKey_setKey_same]
        rw [getKey_setKey_ne _ _ _ _ (by decide : "is_terminal" ≠ "reward")]
          at ht
        rw [getKey_preprocessLoop_not_log obs "is_terminal" (by decide)] at ht
        rw [htv0] at ht
        cases Option.some.inj ht
        rfl

/-- Witness for C10 on a three-entry observation mapping. -/
theorem preprocess_spec_witness :
    getKey
      [("reward", Val.f 0), ("is_terminal", Val.f 1), ("log_a", Val.f 5),
        ("discount", Val.f ((1 - valToFloat (Val.f 1)) * 1))] "discount"
      = some (Val.f ((1 - valToFloat (convertVal (Val.f 1))) * 1)) :=
  (preprocess_spec (fun v => v) 1
    [("reward", Val.f 0), ("is_terminal", Val.f 1), ("log_a", Val.f 5)]
    [("reward", Val.f 0), ("is_terminal", Val.f 1), ("log_a", Val.f 5),
      ("discount", Val.f ((1 - valToFloat (Val.f 1)) * 1))]
    rfl).2 (Val.f 1) rfl

end DreamerIR
